import Mathlib

/-!
Shallow embedding of `domnix.py`, a batch WHOIS domain checker, together
with theorems settling the specification claims about it.

The network transport (`whois_query`'s socket I/O) is abstracted as an
oracle indexed by a global call counter; everything else is translated
function-by-function from the source.
-/

namespace Domnix

/-! Character-level helpers modelling the Python string primitives used
by the source. -/

/-- Python whitespace (the ASCII subset of `str.strip`'s default set and of
the regex class for whitespace; the program's data adds no further
whitespace code points). -/
def isPyWs (c : Char) : Bool :=
  c = ' ' || c = '\t' || c = '\n' || c = '\r' || c = '\x0b' || c = '\x0c'

/-- Python `str.lower`, restricted to the alphabets this program's data can
contain (ASCII letters plus the Russian Cyrillic letters of the marker
list); every other character is returned unchanged. -/
def pyToLower (c : Char) : Char :=
  if 65 ≤ c.toNat && c.toNat ≤ 90 then Char.ofNat (c.toNat + 32)
  else if 0x410 ≤ c.toNat && c.toNat ≤ 0x42F then Char.ofNat (c.toNat + 0x20)
  else if c.toNat = 0x401 then Char.ofNat 0x451
  else c

def pyLower (cs : List Char) : List Char := cs.map pyToLower

/-- Strip characters satisfying `p` from both ends (Python `str.strip`). -/
def stripEnds (p : Char → Bool) (cs : List Char) : List Char :=
  ((cs.dropWhile p).reverse.dropWhile p).reverse

/-- Match `pat` as an initial segment of `cs`; on success return the rest. -/
def dropLit : List Char → List Char → Option (List Char)
  | [], cs => some cs
  | _ :: _, [] => none
  | p :: ps, c :: cs => if c = p then dropLit ps cs else none

/-- Substring containment, Python's `needle in hay`. -/
def hasSub (needle : List Char) : List Char → Bool
  | [] => needle.isEmpty
  | c :: rest => (dropLit needle (c :: rest)).isSome || hasSub needle rest

/-- The proper suffixes of `cs` that begin right after a newline. -/
def lineStarts : List Char → List (List Char)
  | [] => []
  | c :: rest => if c = '\n' then rest :: lineStarts rest else lineStarts rest

/-- All suffixes of `cs` at which `re.MULTILINE`'s line anchor matches:
the whole string plus every position following a newline. -/
def lineStartTails (cs : List Char) : List (List Char) := cs :: lineStarts cs

/-- Python `"." in s`. -/
def hasDot (s : String) : Bool := s.data.contains '.'

/-- Python `s.split(".")`. -/
def splitDots : List Char → List (List Char)
  | [] => [[]]
  | c :: rest =>
    match splitDots rest with
    | r :: rs => if c = '.' then [] :: r :: rs else (c :: r) :: rs
    | [] => [[]]

/-- Rejoin labels with a dot, the inverse of `splitDots`. -/
def joinDots : List (List Char) → List Char
  | [] => []
  | [l] => l
  | l :: ls => l ++ '.' :: joinDots ls

/-- Modelled from the standard idna codec as exercised by this program: a
pure-ASCII label of length 1..63 encodes to itself; any other label (empty,
overlong, or non-ASCII, which the real codec would send through nameprep
and punycode) is folded into the failure case, which `to_ascii` turns into
its identity fallback. Theorems that depend on `to_ascii`'s output
therefore restrict their inputs to ASCII. -/
def idnaLabel (l : List Char) : Option (List Char) :=
  if l.all (fun c => c.toNat < 128) && 1 ≤ l.length && l.length ≤ 63 then some l
  else none

/-- The idna codec applied to a whole domain: encode each dot-separated
label, rejoin with dots; fail if any label fails. -/
def idnaEncode (cs : List Char) : Option (List Char) :=
  ((splitDots cs).mapM idnaLabel).map joinDots

/-- `to_ascii` from domnix.py: strip surrounding whitespace, strip dots
from both ends, lowercase; then IDNA-encode, falling back to the
stripped/lowered string if the codec fails, and returning the empty string
unchanged. -/
def to_ascii (domain : String) : String :=
  let cs := pyLower (stripEnds (fun c => c = '.') (stripEnds isPyWs domain.data))
  if cs.isEmpty then String.mk cs
  else
    match idnaEncode cs with
    | some out => String.mk out
    | none => String.mk cs

/-! The response classifier. -/

/-- `AVAILABLE_MARKERS` from domnix.py, including the non-English variants
appended right after the literal list. -/
def AVAILABLE_MARKERS : List String :=
  ["no match", "not found", "no entries found", "no data found",
   "status: available", "status: free", "domain not found", "no object found",
   "no such domain", "not registered", "object does not exist",
   "не найден", "свободен", "нет данных"]

/-- The availability test of `interpret_whois`: some marker occurs in the
lowercased response text. -/
def hasAvailableMarker (raw : String) : Bool :=
  AVAILABLE_MARKERS.any (fun m => hasSub m.data (pyLower raw.data))

/-- Case-insensitive multiline search for a line starting `domain name:`
followed by optional whitespace and at least one non-whitespace character
(the `\S`-plus requirement of the pattern). -/
def hasDomainNameLine (raw : String) : Bool :=
  (lineStartTails raw.data).any fun s =>
    pyLower (s.take 12) == "domain name:".data &&
    !(((s.drop 12).dropWhile isPyWs).isEmpty)

/-- The status words whose appearance after `status:` marks a registered
domain (prefix match, per the source's alternation). -/
def STATUS_WORDS : List String := ["ok", "client", "server", "active", "registered"]

/-- Case-insensitive multiline search for a line starting `status:`
followed by optional whitespace and one of the status words. -/
def hasStatusLine (raw : String) : Bool :=
  (lineStartTails raw.data).any fun s =>
    pyLower (s.take 7) == "status:".data &&
    (STATUS_WORDS.any fun w =>
      pyLower (((s.drop 7).dropWhile isPyWs).take w.length) == w.data)

/-- Case-insensitive search anywhere for registration metadata. -/
def hasRegMeta (raw : String) : Bool :=
  ["registrant", "registry expiry date", "created:"].any fun w =>
    hasSub w.data (pyLower raw.data)

/-- `interpret_whois` from domnix.py: the ordered heuristic chain. -/
def interpret_whois (raw : String) : String :=
  if hasAvailableMarker raw then "free"
  else if hasDomainNameLine raw then "registered"
  else if hasStatusLine raw then "registered"
  else if hasRegMeta raw then "registered"
  else "unknown"

/-! The server directory and the transport abstraction. -/

/-- The network transport as an oracle: call number `k` (a process-wide
counter, the call-count instrumentation the spec speaks of) to host `h`
with query text `q` either returns the decoded response text or the
message of the exception the call raised. -/
abbrev Transport := Nat → String → String → Except String String

/-- The process-wide mutable state: the zone-to-server cache
(`WHOIS_SERVER_CACHE`) and the number of transport calls made so far. -/
structure NetState where
  cache : List (String × String)
  calls : Nat
deriving DecidableEq

/-- Python dict lookup on the cache (first matching entry; entries are
prepended, and a key is only ever inserted once). -/
def cacheLookup (tld : String) : List (String × String) → Option String
  | [] => none
  | (k, v) :: rest => if k = tld then some v else cacheLookup tld rest

/-- Search for `whois:` (case-insensitively) anywhere in the response,
then skip whitespace and take the following non-whitespace run; if a
`whois:` occurrence is followed by nothing but whitespace, the search
continues to the right, as the regex engine does. -/
def findWhoisAux : List Char → Option (List Char)
  | [] => none
  | c :: rest =>
    if pyLower ((c :: rest).take 6) == "whois:".data then
      let after := ((c :: rest).drop 6).dropWhile isPyWs
      if after.isEmpty then findWhoisAux rest
      else some (after.takeWhile (fun ch => !(isPyWs ch)))
    else findWhoisAux rest

/-- The referral-field parse of `find_whois_server`, including the
`.strip()` applied to the captured group (a no-op on a non-whitespace run,
kept for shape). -/
def findWhoisField (resp : String) : Option String :=
  (findWhoisAux resp.data).map (fun g => String.mk (stripEnds isPyWs g))

/-- `find_whois_server` from domnix.py: take the final dot-separated label
as the zone, consult the cache, otherwise query the fixed root host and
parse the referral, caching only the successful outcome. -/
def find_whois_server (t : Transport) (domain : String) (st : NetState) :
    Option String × NetState :=
  let parts := splitDots domain.data
  if parts.length < 2 then (none, st)
  else
    let tld := String.mk (parts.getLastD [])
    match cacheLookup tld st.cache with
    | some server => (some server, st)
    | none =>
      match t st.calls "whois.iana.org" tld with
      | Except.error _ => (none, { st with calls := st.calls + 1 })
      | Except.ok resp =>
        match findWhoisField resp with
        | some server =>
            (some server, { cache := (tld, server) :: st.cache, calls := st.calls + 1 })
        | none => (none, { st with calls := st.calls + 1 })

/-! The per-domain checker. -/

/-- The inner `for q in queries` loop of `check_one`: issue the variants in
order, stopping at the first transport success; a failure records the
error message (the `time.sleep(0.2)` back-off has no observable effect in
the embedding). Returns the first successful response (if any), the last
recorded error, and the updated call counter. -/
def runVariants (t : Transport) (server : String) :
    List String → Nat → Option String → Option String × Option String × Nat
  | [], c, le => (none, le, c)
  | q :: qs, c, le =>
    match t c server q with
    | Except.ok raw => (some raw, le, c + 1)
    | Except.error e => runVariants t server qs (c + 1) (some e)

/-- The outer `for attempt in range(retry + 1)` loop of `check_one`,
taking the number of attempts still to run. -/
def retryLoop (t : Transport) (server : String) (queries : List String) :
    Nat → Nat → Option String → Option String × Option String × Nat
  | 0, c, le => (none, le, c)
  | n + 1, c, le =>
    match runVariants t server queries c le with
    | (some raw, le2, c2) => (some raw, le2, c2)
    | (none, le2, c2) => retryLoop t server queries n c2 le2

/-- Python `x or y` for an optional string (`None` and the empty string
are both falsy). -/
def pyOrDefault (x : Option String) (y : String) : String :=
  match x with
  | some s => if s = "" then y else s
  | none => y

/-- The default-TLD injection at the top of `check_one`, applied to the
raw caller-supplied string. -/
def withDefaultTld (domain : String) (default_tld : String) : String :=
  if hasDot domain then domain else domain ++ "." ++ default_tld

/-- `check_one` from domnix.py. Transport exceptions are values of the
`Except` oracle, mirroring the `try/except` that converts them into
recorded error strings, so the checker is total by construction. -/
def check_one (t : Transport) (domain0 : String) (retry : Nat)
    (default_tld : String) (st : NetState) :
    (String × String × String) × NetState :=
  let domain := withDefaultTld domain0 default_tld
  let d := to_ascii domain
  if d = "" || !(hasDot d) then ((domain, "invalid", "Invalid domain name"), st)
  else
    match find_whois_server t d st with
    | (none, st1) => ((domain, "unknown", "WHOIS server not found at IANA"), st1)
    | (some server, st1) =>
      let queries := [d, "domain " ++ d]
      match retryLoop t server queries (retry + 1) st1.calls none with
      | (some raw, _, c) =>
        let status := interpret_whois raw
        if status ≠ "unknown" then ((domain, status, "whois: " ++ server), { st1 with calls := c })
        else ((domain, "unknown", "whois: " ++ server), { st1 with calls := c })
      | (none, lastErr, c) =>
        ((domain, "error", pyOrDefault lastErr "Ошибка WHOIS-запроса"), { st1 with calls := c })

/-! The batch runner of `main`. -/

/-- One `check_one` call per input domain against the shared cache and
call counter. The worker pool's nondeterministic completion order is
modelled separately, as an arbitrary permutation of this record list. -/
def runChecks (t : Transport) (retry : Nat) (default_tld : String) :
    List String → NetState → List (String × String × String) × NetState
  | [], st => ([], st)
  | d :: rest, st =>
    let r := check_one t d retry default_tld st
    let rr := runChecks t retry default_tld rest r.2
    (r.1 :: rr.1, rr.2)

/-- The sort key of `main`: the dict comprehension maps each domain to its
index, a later duplicate overwriting an earlier one, and `order.get`
defaults to `10 ** 9` for a string absent from the input. -/
def orderGet (domains : List String) (x : String) : Nat :=
  match ((domains.enum.filter (fun p => p.2 == x)).map (fun p => p.1)).getLast? with
  | some i => i
  | none => 10 ^ 9

/-- `results.sort(key=lambda r: order.get(r[0], 10**9))`: Python's sort is
stable, and a stable sort's output is uniquely determined by the key and
the input order, so any stable sort models it exactly; insertion sort is
used here because it is structurally recursive and therefore executable
inside proofs. -/
def sortResults (domains : List String) (results : List (String × String × String)) :
    List (String × String × String) :=
  results.insertionSort (fun a b => orderGet domains a.1 ≤ orderGet domains b.1)

/-! The transport's byte-level receive path (`whois_query`'s read loop and
decode step). -/

/-- A UTF-8 continuation byte. -/
def isCont (b : Nat) : Bool := 0x80 ≤ b && b ≤ 0xBF

/-- Python `bytes.decode("utf-8", errors=...)`: a total decoder; `onErr`
is what the error handler emits per maximal invalid subpart — `[]` for
`"ignore"` (what the source passes) and a replacement character for
`"replace"` (what the spec describes). Invalid-range leads, out-of-range
continuations, surrogates, overlong forms and truncated tails all take the
error path, as in CPython. The recursion is driven by a fuel argument
(one unit per decoded item; `pyUtf8Decode` supplies the byte count, which
always suffices since every step consumes at least one byte), keeping the
definition structurally recursive and so executable inside proofs. -/
def pyUtf8DecodeAux (onErr : List Char) : Nat → List Nat → List Char
  | 0, _ => []
  | _ + 1, [] => []
  | fuel + 1, b :: t =>
    if b ≤ 0x7F then Char.ofNat b :: pyUtf8DecodeAux onErr fuel t
    else if b ≤ 0xC1 then onErr ++ pyUtf8DecodeAux onErr fuel t
    else if b ≤ 0xDF then
      match t with
      | [] => onErr
      | b2 :: t2 =>
        if isCont b2 then
          Char.ofNat ((b - 0xC0) * 64 + (b2 - 0x80)) :: pyUtf8DecodeAux onErr fuel t2
        else onErr ++ pyUtf8DecodeAux onErr fuel t
    else if b ≤ 0xEF then
      match t with
      | [] => onErr
      | b2 :: t2 =>
        if (if b = 0xE0 then 0xA0 else 0x80) ≤ b2 && b2 ≤ (if b = 0xED then 0x9F else 0xBF) then
          match t2 with
          | [] => onErr
          | b3 :: t3 =>
            if isCont b3 then
              Char.ofNat ((b - 0xE0) * 4096 + (b2 - 0x80) * 64 + (b3 - 0x80)) ::
                pyUtf8DecodeAux onErr fuel t3
            else onErr ++ pyUtf8DecodeAux onErr fuel t2
        else onErr ++ pyUtf8DecodeAux onErr fuel t
    else if b ≤ 0xF4 then
      match t with
      | [] => onErr
      | b2 :: t2 =>
        if (if b = 0xF0 then 0x90 else 0x80) ≤ b2 && b2 ≤ (if b = 0xF4 then 0x8F else 0xBF) then
          match t2 with
          | [] => onErr
          | b3 :: t3 =>
            if isCont b3 then
              match t3 with
              | [] => onErr
              | b4 :: t4 =>
                if isCont b4 then
                  Char.ofNat ((b - 0xF0) * 262144 + (b2 - 0x80) * 4096 +
                      (b3 - 0x80) * 64 + (b4 - 0x80)) :: pyUtf8DecodeAux onErr fuel t4
                else onErr ++ pyUtf8DecodeAux onErr fuel t3
            else onErr ++ pyUtf8DecodeAux onErr fuel t2
        else onErr ++ pyUtf8DecodeAux onErr fuel t
    else onErr ++ pyUtf8DecodeAux onErr fuel t

/-- The decoder proper: fuel is the byte count. -/
def pyUtf8Decode (onErr : List Char) (l : List Nat) : List Char :=
  pyUtf8DecodeAux onErr l.length l

/-- The receive side of `whois_query`: the chunks returned by successive
`recv` calls until the peer closes are concatenated and decoded with
`errors="ignore"`. -/
def whois_query (chunks : List (List Nat)) : String :=
  String.mk (pyUtf8Decode [] chunks.flatten)

/-- The UTF-8 encoding of a scalar value, used to state round-trip
properties of the decoder. -/
def utf8EncodeChar (c : Char) : List Nat :=
  let n := c.toNat
  if n < 0x80 then [n]
  else if n < 0x800 then [0xC0 + n / 64, 0x80 + n % 64]
  else if n < 0x10000 then [0xE0 + n / 4096, 0x80 + (n / 64) % 64, 0x80 + n % 64]
  else [0xF0 + n / 262144, 0x80 + (n / 4096) % 64, 0x80 + (n / 64) % 64, 0x80 + n % 64]

def utf8Encode (cs : List Char) : List Nat := (cs.map utf8EncodeChar).flatten

/-! Concrete transports used to evaluate the model at specific inputs. -/

/-- A transport whose every call raises (network down). -/
def tFail : Transport := fun _ _ _ => Except.error "down"

/-- Root directory answers with a referral to `SRV`; every other call
raises with a message naming the call index. -/
def tBoom : Transport := fun k s _ =>
  if s = "whois.iana.org" then Except.ok "whois: SRV"
  else Except.error ("boom" ++ toString k)

/-- Like `tBoom`, but every authoritative failure carries an empty
message. -/
def tBoomEmpty : Transport := fun _ s _ =>
  if s = "whois.iana.org" then Except.ok "whois: SRV" else Except.error ""

/-- Every call yields a response with no parseable referral field. -/
def tNoRef : Transport := fun _ _ _ => Except.ok "no referral here"

/-- Every call yields a referral to the zz registry. -/
def tZZ : Transport := fun _ _ _ => Except.ok "whois: whois.nic.zz\n"

/-- First call: a referral; later calls: an unclassifiable response. -/
def tVague : Transport := fun k _ _ =>
  if k = 0 then Except.ok "whois: SRV" else Except.ok "gibberish"

/-- Referral from the root; the bare-domain query is refused; the
keyword-variant query succeeds with a registered-looking response. -/
def tSecondVariant : Transport := fun k s _ =>
  if s = "whois.iana.org" then Except.ok "whois: SRV"
  else if k = 1 then Except.error "refused"
  else Except.ok "Domain Name: EXAMPLE.COM\n"

/-- Referral from the root; the authoritative server closes without
sending any data (empty response). -/
def tEmptyResp : Transport := fun _ s _ =>
  if s = "whois.iana.org" then Except.ok "whois: SRV" else Except.ok ""

/-! Helper lemmas. -/

/-- The classifier only ever emits one of its three tags. -/
theorem interpret_whois_mem (raw : String) :
    interpret_whois raw = "free" ∨ interpret_whois raw = "registered" ∨
      interpret_whois raw = "unknown" := by
  unfold interpret_whois
  repeat' split
  all_goals simp

/-- An input that already contains a dot is passed through unchanged. -/
theorem withDefaultTld_of_hasDot {s : String} (tld : String) (h : hasDot s = true) :
    withDefaultTld s tld = s := by
  simp [withDefaultTld, h]

/-- Every branch of `check_one` returns, as the record's first component,
the input after default-TLD injection (never the caller's string when a
TLD was injected). -/
theorem check_one_fst (t : Transport) (d0 : String) (r : Nat) (tld : String)
    (st : NetState) :
    (check_one t d0 r tld st).1.1 = withDefaultTld d0 tld := by
  unfold check_one
  dsimp only
  repeat' split
  all_goals rfl

/-- C2 (amended): the Result Record's first component is the original
domain string exactly as supplied only when that string contains a dot;
a dotless input is returned with `"." ++ default_tld` appended to it
(the augmented string, not the original). Classification and note are
the other two components. -/
theorem c2_record_domain_amended (t : Transport) (d0 : String) (r : Nat)
    (tld : String) (st : NetState) :
    (check_one t d0 r tld st).1.1 =
      (if hasDot d0 then d0 else d0 ++ "." ++ tld) := by
  rw [check_one_fst]
  rfl

/-- C2 counterexample: for the caller-supplied input "example" the record's
first component is "example.com", not the original string "example". -/
theorem c2_record_domain_counterexample :
    (check_one tFail "example" 1 "com" ⟨[], 0⟩).1.1 = "example.com" ∧
      (check_one tFail "example" 1 "com" ⟨[], 0⟩).1.1 ≠ "example" := by
  constructor
  · decide
  · decide

/-- C8: availability heuristics are applied strictly before registration
heuristics — any response containing an availability marker is classified
`free`, whatever registered-indicator evidence it also contains. -/
theorem c8_availability_priority (raw : String)
    (h : hasAvailableMarker raw = true) :
    interpret_whois raw = "free" := by
  simp [interpret_whois, h]

/-- C8 witness: a text carrying the availability marker "no match"
together with a `domain name:` line, an active `status:` line, the word
"registered" and registration metadata is still classified `free`. -/
theorem c8_availability_priority_witness :
    hasAvailableMarker
        "No match for domain\nDomain Name: EXAMPLE.COM\nStatus: active\nRegistrant: X, registered" = true ∧
      hasDomainNameLine
        "No match for domain\nDomain Name: EXAMPLE.COM\nStatus: active\nRegistrant: X, registered" = true ∧
      hasStatusLine
        "No match for domain\nDomain Name: EXAMPLE.COM\nStatus: active\nRegistrant: X, registered" = true ∧
      hasRegMeta
        "No match for domain\nDomain Name: EXAMPLE.COM\nStatus: active\nRegistrant: X, registered" = true ∧
      interpret_whois
        "No match for domain\nDomain Name: EXAMPLE.COM\nStatus: active\nRegistrant: X, registered" = "free" :=
  ⟨by decide, by decide, by decide, by decide,
    c8_availability_priority _ (by decide)⟩

/-- C9: the per-domain check is total — transport failures are values of
the oracle's `Except`, mirroring the `try/except` that turns exceptions
into recorded strings, so for every input and every oracle behaviour
`check_one` returns exactly one record, whose classification always lies
in the closed five-tag set. -/
theorem c9_checker_total (t : Transport) (d0 : String) (r : Nat)
    (tld : String) (st : NetState) :
    (check_one t d0 r tld st).1.2.1 ∈
      (["invalid", "unknown", "free", "registered", "error"] : List String) := by
  unfold check_one
  dsimp only
  split
  · simp
  split
  · simp
  split
  · rename_i raw le c heq
    rcases interpret_whois_mem raw with h | h | h <;> simp [h]
  · simp

/-- If the first transport call of an attempt succeeds, the retry loop
stops there with one more call made. -/
theorem retryLoop_first_ok {t : Transport} {server q raw : String} {c : Nat}
    (hok : t c server q = Except.ok raw) (qs : List String) (n : Nat)
    (le : Option String) :
    retryLoop t server (q :: qs) (n + 1) c le = (some raw, le, c + 1) := by
  simp [retryLoop, runVariants, hok]

/-- If the first variant raises and the second succeeds, the retry loop
stops after the second with two more calls made. -/
theorem retryLoop_second_ok {t : Transport} {server q1 q2 e raw : String}
    {c : Nat} (he : t c server q1 = Except.error e)
    (hok : t (c + 1) server q2 = Except.ok raw) (n : Nat) (le : Option String) :
    retryLoop t server [q1, q2] (n + 1) c le = (some raw, some e, c + 2) := by
  simp [retryLoop, runVariants, he, hok]

/-- Reduction of `check_one` along the success path: valid normalized
domain, resolved server, and a retry loop that ends with a response. -/
theorem check_one_ok_path (t : Transport) (d0 tld d server raw : String)
    (r : Nat) (st st1 : NetState) (le : Option String) (c : Nat)
    (hnorm : to_ascii (withDefaultTld d0 tld) = d)
    (hd : d ≠ "") (hdot : hasDot d = true)
    (hfind : find_whois_server t d st = (some server, st1))
    (hloop : retryLoop t server [d, "domain " ++ d] (r + 1) st1.calls none =
      (some raw, le, c)) :
    check_one t d0 r tld st =
      ((withDefaultTld d0 tld, interpret_whois raw, "whois: " ++ server),
        { st1 with calls := c }) := by
  unfold check_one
  dsimp only
  rw [hnorm]
  rw [if_neg (by simp [hd, hdot])]
  rw [hfind]
  dsimp only
  rw [hloop]
  dsimp only
  by_cases hiw : interpret_whois raw = "unknown"
  · simp [hiw]
  · simp [hiw]

/-- Reduction of `check_one` along the error path: valid normalized
domain, resolved server, and a retry loop that exhausted every attempt. -/
theorem check_one_err_path (t : Transport) (d0 tld d server : String)
    (r : Nat) (st st1 : NetState) (le : Option String) (c : Nat)
    (hnorm : to_ascii (withDefaultTld d0 tld) = d)
    (hd : d ≠ "") (hdot : hasDot d = true)
    (hfind : find_whois_server t d st = (some server, st1))
    (hloop : retryLoop t server [d, "domain " ++ d] (r + 1) st1.calls none =
      (none, le, c)) :
    check_one t d0 r tld st =
      ((withDefaultTld d0 tld, "error", pyOrDefault le "Ошибка WHOIS-запроса"),
        { st1 with calls := c }) := by
  unfold check_one
  dsimp only
  rw [hnorm]
  rw [if_neg (by simp [hd, hdot])]
  rw [hfind]
  dsimp only
  rw [hloop]

/-- C4: within each attempt the query variants are tried in order; the
first variant whose transport call succeeds is classified and returned
immediately — a classification of `unknown` included, since the returned
note and state are the same whatever `interpret_whois` yields — so the
keyword variant runs exactly when the bare query raises, and later
attempts run only when both raise. -/
theorem c4_first_success_terminal (t : Transport) (d0 tld d server : String)
    (r : Nat) (st st1 : NetState)
    (hnorm : to_ascii (withDefaultTld d0 tld) = d)
    (hd : d ≠ "") (hdot : hasDot d = true)
    (hfind : find_whois_server t d st = (some server, st1)) :
    (∀ raw, t st1.calls server d = Except.ok raw →
      check_one t d0 r tld st =
        ((withDefaultTld d0 tld, interpret_whois raw, "whois: " ++ server),
          { st1 with calls := st1.calls + 1 })) ∧
    (∀ e raw, t st1.calls server d = Except.error e →
      t (st1.calls + 1) server ("domain " ++ d) = Except.ok raw →
      check_one t d0 r tld st =
        ((withDefaultTld d0 tld, interpret_whois raw, "whois: " ++ server),
          { st1 with calls := st1.calls + 2 })) := by
  constructor
  · intro raw hok
    exact check_one_ok_path t d0 tld d server raw r st st1 none (st1.calls + 1)
      hnorm hd hdot hfind (retryLoop_first_ok hok _ r none)
  · intro e raw he hok
    exact check_one_ok_path t d0 tld d server raw r st st1 (some e) (st1.calls + 2)
      hnorm hd hdot hfind (retryLoop_second_ok he hok r none)

/-- C4 witness: with a referral to SRV and a first-call response that no
heuristic recognizes, the checker still returns at once with `unknown`
after a single authoritative call; and with a refused bare query followed
by a registered-looking answer to the keyword variant, it returns after
two. -/
theorem c4_first_success_terminal_witness :
    check_one tVague "a.com" 5 "com" ⟨[], 0⟩ =
        (("a.com", "unknown", "whois: SRV"), ⟨[("com", "SRV")], 2⟩) ∧
      check_one tSecondVariant "a.com" 0 "com" ⟨[], 0⟩ =
        (("a.com", "registered", "whois: SRV"), ⟨[("com", "SRV")], 3⟩) := by
  constructor
  · exact ((c4_first_success_terminal tVague "a.com" "com" "a.com" "SRV" 5
      ⟨[], 0⟩ ⟨[("com", "SRV")], 1⟩ (by decide) (by decide) (by decide)
      rfl).1 "gibberish" rfl).trans (by decide)
  · exact ((c4_first_success_terminal tSecondVariant "a.com" "com" "a.com" "SRV" 0
      ⟨[], 0⟩ ⟨[("com", "SRV")], 1⟩ (by decide) (by decide) (by decide)
      rfl).2 "refused" "Domain Name: EXAMPLE.COM\n" rfl
      rfl).trans (by decide)

/-- C10: an empty transport response classifies as `unknown`, and the
checker treats it as a terminal answer: one authoritative call, a record
naming the server in its note, no retry. -/
theorem c10_empty_response_unknown (t : Transport) (d0 tld d server : String)
    (r : Nat) (st st1 : NetState)
    (hnorm : to_ascii (withDefaultTld d0 tld) = d)
    (hd : d ≠ "") (hdot : hasDot d = true)
    (hfind : find_whois_server t d st = (some server, st1))
    (hok : t st1.calls server d = Except.ok "") :
    interpret_whois "" = "unknown" ∧
      check_one t d0 r tld st =
        ((withDefaultTld d0 tld, "unknown", "whois: " ++ server),
          { st1 with calls := st1.calls + 1 }) := by
  refine ⟨by decide, ?_⟩
  have h := check_one_ok_path t d0 tld d server "" r st st1 none (st1.calls + 1)
    hnorm hd hdot hfind (retryLoop_first_ok hok _ r none)
  rw [h, show interpret_whois "" = "unknown" from by decide]

/-- C10 witness: a server that accepts and closes silently produces the
record ("a.com", "unknown", "whois: SRV") after exactly one authoritative
call (two transport calls in total, counting the root query). -/
theorem c10_empty_response_unknown_witness :
    interpret_whois "" = "unknown" ∧
      check_one tEmptyResp "a.com" 1 "com" ⟨[], 0⟩ =
        (("a.com", "unknown", "whois: SRV"), ⟨[("com", "SRV")], 2⟩) := by
  have h := c10_empty_response_unknown tEmptyResp "a.com" "com" "a.com" "SRV" 1
    ⟨[], 0⟩ ⟨[("com", "SRV")], 1⟩ (by decide) (by decide) (by decide)
    rfl rfl
  exact ⟨h.1, h.2.trans (by decide)⟩

/-- When every call to the authoritative server raises, each attempt
exhausts both query variants, so `n + 1` attempts make `2 * (n + 1)`
calls and the recorded error is the one from the last call. -/
theorem retryLoop_all_fail {t : Transport} {server : String} {E : Nat → String}
    (q1 q2 : String) (hfail : ∀ k q, t k server q = Except.error (E k)) :
    ∀ (n c : Nat) (le : Option String),
      retryLoop t server [q1, q2] (n + 1) c le =
        (none, some (E (c + 2 * n + 1)), c + 2 * (n + 1)) := by
  intro n
  induction n with
  | zero =>
    intro c le
    simp [retryLoop, runVariants, hfail]
  | succ m ih =>
    intro c le
    have hstep : retryLoop t server [q1, q2] (m + 1 + 1) c le =
        retryLoop t server [q1, q2] (m + 1) (c + 1 + 1) (some (E (c + 1))) := by
      simp [retryLoop, runVariants, hfail]
    rw [hstep, ih]
    have h1 : c + 1 + 1 + 2 * m + 1 = c + 2 * (m + 1) + 1 := by omega
    have h2 : c + 1 + 1 + 2 * (m + 1) = c + 2 * (m + 1 + 1) := by omega
    rw [h1, h2]

/-- C5 (amended): with `retry = 2` and a transport whose every call to the
authoritative server raises, both query variants are exhausted in each of
the three attempts, so the server is called exactly six times (not
three) before the record is marked `error`; the note is the message of
the last (sixth) failure, verbatim, provided that message is non-empty
(an empty message is replaced by the fixed fallback text). -/
theorem c5_retry_exhaustion_amended (t : Transport) (d0 tld d server : String)
    (st st1 : NetState) (E : Nat → String)
    (hnorm : to_ascii (withDefaultTld d0 tld) = d)
    (hd : d ≠ "") (hdot : hasDot d = true)
    (hfind : find_whois_server t d st = (some server, st1))
    (hfail : ∀ k q, t k server q = Except.error (E k))
    (hne : E (st1.calls + 5) ≠ "") :
    check_one t d0 2 tld st =
      ((withDefaultTld d0 tld, "error", E (st1.calls + 5)),
        { st1 with calls := st1.calls + 6 }) := by
  have hloop := retryLoop_all_fail d ("domain " ++ d) hfail 2 st1.calls none
  have h := check_one_err_path t d0 tld d server 2 st st1
    (some (E (st1.calls + 2 * 2 + 1))) (st1.calls + 2 * (2 + 1))
    hnorm hd hdot hfind hloop
  rw [h]
  have h5 : st1.calls + 2 * 2 + 1 = st1.calls + 5 := by omega
  have h6 : st1.calls + 2 * (2 + 1) = st1.calls + 6 := by omega
  rw [h5, h6]
  simp [pyOrDefault, hne]

/-- C5 witness: against a transport that refers zone net to SRV and then
fails every authoritative call with a message naming the call index, the
checker with `retry = 2` ends with six authoritative calls (seven
transport calls in total, counting the root query) and the sixth call's
message, "boom6", as the note. -/
theorem c5_retry_exhaustion_amended_witness :
    check_one tBoom "b.net" 2 "com" ⟨[], 0⟩ =
      (("b.net", "error", "boom6"), ⟨[("net", "SRV")], 7⟩) := by
  have h := c5_retry_exhaustion_amended tBoom "b.net" "com" "b.net" "SRV"
    ⟨[], 0⟩ ⟨[("net", "SRV")], 1⟩ (fun k => "boom" ++ toString k)
    (by decide) (by decide) (by decide) (by decide)
    (fun k q => by simp [tBoom]) (by decide)
  exact h.trans (by decide)

/-- C5 counterexample: for `retry = 2` and an all-failing authoritative
transport the server is called exactly six times, never three; and when
the last error's message is empty, the note is the fixed fallback text
rather than the message preserved verbatim. -/
theorem c5_retry_exhaustion_counterexample :
    (check_one tBoom "a.com" 2 "com" ⟨[], 0⟩ =
        (("a.com", "error", "boom6"), ⟨[("com", "SRV")], 7⟩) ∧
      (check_one tBoom "a.com" 2 "com" ⟨[], 0⟩).2.calls -
          (find_whois_server tBoom "a.com" ⟨[], 0⟩).2.calls = 6 ∧
      ¬((check_one tBoom "a.com" 2 "com" ⟨[], 0⟩).2.calls -
          (find_whois_server tBoom "a.com" ⟨[], 0⟩).2.calls = 3)) ∧
    check_one tBoomEmpty "a.com" 2 "com" ⟨[], 0⟩ =
      (("a.com", "error", "Ошибка WHOIS-запроса"), ⟨[("com", "SRV")], 7⟩) := by
  refine ⟨⟨by decide, by decide, by decide⟩, by decide⟩

/-- C3 (amended): once a zone's lookup has succeeded, the mapping is
cached, and any later resolution of a domain in the same zone is answered
from the cache with the state — call counter included — unchanged: no
further root-directory round trip. (Failed lookups are not cached: only a
parsed referral is recorded, so the at-most-one-query bound holds for the
successful case only, and no not-found marker is ever stored.) -/
theorem c3_zone_cache_amended (t : Transport) (d1 d2 : String)
    (st st1 : NetState) (server : String)
    (h1 : find_whois_server t d1 st = (some server, st1))
    (hlen : 2 ≤ (splitDots d2.data).length)
    (htld : (splitDots d2.data).getLastD [] = (splitDots d1.data).getLastD []) :
    find_whois_server t d2 st1 = (some server, st1) := by
  have hcache :
      cacheLookup (String.mk ((splitDots d1.data).getLastD [])) st1.cache =
        some server := by
    unfold find_whois_server at h1
    dsimp only at h1
    split at h1
    · exact absurd (congrArg Prod.fst h1) (by simp)
    · split at h1
      · rename_i s0 hcl
        simp only [Prod.mk.injEq] at h1
        obtain ⟨h1a, h1b⟩ := h1
        rw [← h1b, ← h1a]
        exact hcl
      · rename_i hcl
        split at h1
        · exact absurd (congrArg Prod.fst h1) (by simp)
        · rename_i resp hio
          split at h1
          · rename_i s0 hfld
            simp only [Prod.mk.injEq] at h1
            obtain ⟨h1a, h1b⟩ := h1
            rw [← h1b, ← h1a]
            simp [cacheLookup]
          · exact absurd (congrArg Prod.fst h1) (by simp)
  unfold find_whois_server
  dsimp only
  rw [if_neg (by omega)]
  rw [htld, hcache]

/-- C3 witness: after one batch member resolved zone zz (one root query,
cached referral), resolving a second domain of the same zone returns the
cached host with the call counter untouched. -/
theorem c3_zone_cache_amended_witness :
    find_whois_server tZZ "b.zz" ⟨[("zz", "whois.nic.zz")], 1⟩ =
        (some "whois.nic.zz", ⟨[("zz", "whois.nic.zz")], 1⟩) ∧
      find_whois_server tZZ "a.zz" ⟨[], 0⟩ =
        (some "whois.nic.zz", ⟨[("zz", "whois.nic.zz")], 1⟩) :=
  ⟨c3_zone_cache_amended tZZ "a.zz" "b.zz" ⟨[], 0⟩ ⟨[("zz", "whois.nic.zz")], 1⟩
      "whois.nic.zz" (by decide) (by decide) (by decide),
    by decide⟩

/-- C3 counterexample: when the root directory's answer for a zone has no
parseable referral, nothing is cached, so a batch of two domains sharing
that zone performs two root-directory queries — the claimed at-most-one
bound (and the claimed caching of a not-found marker) fails. -/
theorem c3_zone_cache_counterexample :
    (runChecks tNoRef 1 "com" ["a.zz", "b.zz"] ⟨[], 0⟩).2.calls = 2 ∧
      ¬((runChecks tNoRef 1 "com" ["a.zz", "b.zz"] ⟨[], 0⟩).2.calls ≤ 1) ∧
      (runChecks tNoRef 1 "com" ["a.zz", "b.zz"] ⟨[], 0⟩).2.cache = [] := by
  refine ⟨by decide, by decide, by decide⟩

/-- Dropping while a predicate fails on every element drops nothing. -/
theorem dropWhile_eq_self_of_not {p : Char → Bool} {l : List Char}
    (h : ∀ a ∈ l, p a = false) : l.dropWhile p = l := by
  cases l with
  | nil => rfl
  | cons a as => simp [List.dropWhile_cons, h a (by simp)]

/-- Stripping whitespace from a string that ends in a dot strips only the
leading run (the final dot shields the right end). -/
theorem stripEnds_ws_append_dot (cs : List Char) :
    stripEnds isPyWs (cs ++ ['.']) = cs.dropWhile isPyWs ++ ['.'] := by
  unfold stripEnds
  rw [List.dropWhile_append]
  split
  · rename_i hemp
    rw [List.isEmpty_iff] at hemp
    rw [hemp]
    decide
  · rw [List.reverse_append]
    simp only [List.reverse_cons, List.reverse_nil, List.nil_append,
      List.singleton_append]
    rw [List.dropWhile_cons]
    simp only [show isPyWs '.' = false from rfl, Bool.false_eq_true, if_false]
    simp

/-- Stripping dots from a dotless string with one trailing dot yields the
dotless string back. -/
theorem stripEnds_dot_append_dot {l : List Char} (h : '.' ∉ l) :
    stripEnds (fun c => c = '.') (l ++ ['.']) = l := by
  have hall : ∀ a ∈ l, decide (a = '.') = false := by
    intro a ha
    simp only [decide_eq_false_iff_not]
    exact fun hc => h (hc ▸ ha)
  unfold stripEnds
  rw [List.dropWhile_append, dropWhile_eq_self_of_not hall]
  split
  · rename_i hemp
    rw [List.isEmpty_iff] at hemp
    subst hemp
    decide
  · rw [List.reverse_append]
    simp only [List.reverse_cons, List.reverse_nil, List.nil_append,
      List.singleton_append]
    rw [List.dropWhile_cons]
    simp only [decide_True, if_true]
    rw [dropWhile_eq_self_of_not (by intro a ha; exact hall a (by simpa using ha))]
    simp

/-- The lowercasing step maps no character to a dot. -/
theorem pyToLower_ne_dot {c : Char} (hc : c ≠ '.') : pyToLower c ≠ '.' := by
  have hA : ∀ k : Fin 26, Char.ofNat (97 + k.val) ≠ '.' := by decide
  have hC : ∀ k : Fin 32, Char.ofNat (0x430 + k.val) ≠ '.' := by decide
  have hY : Char.ofNat 0x451 ≠ '.' := by decide
  unfold pyToLower
  split
  · rename_i h
    simp only [Bool.and_eq_true, decide_eq_true_eq] at h
    have : c.toNat + 32 = 97 + (c.toNat - 65) := by omega
    rw [this]
    exact hA ⟨c.toNat - 65, by omega⟩
  · split
    · rename_i h
      simp only [Bool.and_eq_true, decide_eq_true_eq] at h
      have : c.toNat + 0x20 = 0x430 + (c.toNat - 0x410) := by omega
      rw [this]
      exact hC ⟨c.toNat - 0x410, by omega⟩
    · split
      · exact hY
      · exact hc

/-- Membership survives end-stripping. -/
theorem mem_of_mem_stripEnds {p : Char → Bool} {a : Char} {l : List Char}
    (h : a ∈ stripEnds p l) : a ∈ l := by
  unfold stripEnds at h
  rw [List.mem_reverse] at h
  have h2 := (List.dropWhile_sublist p).subset h
  rw [List.mem_reverse] at h2
  exact (List.dropWhile_sublist p).subset h2

/-- Splitting a dotless string on dots yields the single whole label. -/
theorem splitDots_of_nodot {l : List Char} (h : '.' ∉ l) :
    splitDots l = [l] := by
  induction l with
  | nil => rfl
  | cons c rest ih =>
    have hc : c ≠ '.' := fun hc => h (by simp [hc])
    have hr := ih (fun hm => h (by simp [hm]))
    simp [splitDots, hr, hc]

/-- A dotless string stays dotless through `to_ascii` with a trailing dot
appended: the trailing dot is stripped, no step reintroduces one. -/
theorem to_ascii_append_dot_nodot (s : String) (hnodot : hasDot s = false) :
    hasDot (to_ascii (s ++ ".")) = false := by
  have hnin : '.' ∉ s.data := by
    intro hm
    rw [hasDot, List.contains, List.elem_iff.mpr hm] at hnodot
    exact Bool.noConfusion hnodot
  have hdata : (s ++ ".").data = s.data ++ ['.'] := by
    rw [String.data_append]
  have hnindw : '.' ∉ s.data.dropWhile isPyWs :=
    fun hm => hnin ((List.dropWhile_sublist isPyWs).subset hm)
  have hninlow : '.' ∉ pyLower (s.data.dropWhile isPyWs) := by
    intro hm
    rw [pyLower, List.mem_map] at hm
    obtain ⟨c, hc, hcl⟩ := hm
    exact pyToLower_ne_dot (fun hcd => hnindw (hcd ▸ hc)) hcl
  have hcontains :
      ∀ l : List Char, '.' ∉ l → (String.mk l).data.contains '.' = false := by
    intro l hl
    rw [Bool.eq_false_iff]
    intro hc
    exact hl (List.elem_iff.mp hc)
  unfold to_ascii
  rw [hdata, stripEnds_ws_append_dot, stripEnds_dot_append_dot hnindw]
  dsimp only
  split
  · exact hcontains _ (by rename_i hemp; rw [List.isEmpty_iff] at hemp; simp [hemp])
  · rw [idnaEncode, splitDots_of_nodot hninlow]
    cases hl : idnaLabel (pyLower (s.data.dropWhile isPyWs)) with
    | none => simp [List.mapM, List.mapM.loop, hl, hasDot]; exact hninlow
    | some x =>
      have hx : x = pyLower (s.data.dropWhile isPyWs) := by
        rw [idnaLabel] at hl
        split at hl
        · exact (Option.some.injEq _ _ ▸ hl).symm
        · exact absurd hl (by simp)
      simp [List.mapM, List.mapM.loop, hl, hasDot, joinDots, hx]
      exact hninlow

/-- C6 (amended): the default-TLD injection is applied to the raw input
before any trimming or lowercasing, so an input containing a dot — even
only a trailing one — gets no TLD appended; when the trailing dot is then
stripped and no dot remains, the domain is classified `invalid` with no
network call and the state untouched. (The ASCII restriction pins the
inputs on which the embedded idna step agrees with the stdlib codec.) -/
theorem c6_normalization_order_amended (t : Transport) (s tld : String)
    (r : Nat) (st : NetState)
    (hascii : ∀ c ∈ s.data, c.toNat < 128)
    (hnodot : hasDot s = false) :
    check_one t (s ++ ".") r tld st =
      ((s ++ ".", "invalid", "Invalid domain name"), st) := by
  have hdotted : hasDot (s ++ ".") = true := by
    rw [hasDot, List.contains]
    exact List.elem_eq_true_of_mem (by simp)
  have hnd := to_ascii_append_dot_nodot s hnodot
  unfold check_one
  dsimp only
  rw [withDefaultTld_of_hasDot tld hdotted]
  rw [if_pos (by simp [hnd])]

/-- C6 witness: "sample." keeps its dot, receives no default TLD, and is
reported invalid with zero transport calls. -/
theorem c6_normalization_order_amended_witness :
    check_one tFail "sample." 3 "net" ⟨[], 0⟩ =
      (("sample.", "invalid", "Invalid domain name"), ⟨[], 0⟩) :=
  c6_normalization_order_amended tFail "sample" "net" 3 ⟨[], 0⟩
    (by decide) (by decide)

/-- C6 counterexample: the claim's own example input "example." is not
normalized to "example.com" — the checker returns it as `invalid` (with
its record keeping the raw string "example."), because the dot check that
guards TLD injection runs on the untrimmed input. -/
theorem c6_normalization_order_counterexample :
    check_one tFail "example." 1 "com" ⟨[], 0⟩ =
        (("example.", "invalid", "Invalid domain name"), ⟨[], 0⟩) ∧
      (check_one tFail "example." 1 "com" ⟨[], 0⟩).1.1 ≠ "example.com" ∧
      (check_one tFail "example." 1 "com" ⟨[], 0⟩).1.2.1 ≠
        (check_one tFail "example" 1 "com" ⟨[], 0⟩).1.2.1 := by
  refine ⟨by decide, by decide, by decide⟩

/-- The scalar-value ranges of a `Char`, in `Nat` form. -/
theorem char_valid_ranges (c : Char) :
    c.toNat < 55296 ∨ (57344 ≤ c.toNat ∧ c.toNat < 1114112) := by
  have hcn : c.toNat = c.val.toNat := rfl
  rcases c.valid with h | ⟨h1, h2⟩
  · left
    rw [hcn]
    exact UInt32.toNat_lt_of_lt (by norm_num) h
  · right
    have ha := @UInt32.lt_toNat_of_lt c.val 57343 (by norm_num) h1
    have hb := @UInt32.toNat_lt_of_lt c.val 1114112 (by norm_num) h2
    rw [hcn]
    exact ⟨by omega, hb⟩

/-- One-step unfolding of the decoder on a nonempty byte list. -/
theorem pyUtf8DecodeAux_cons (onErr : List Char) (fuel b : Nat) (t : List Nat) :
    pyUtf8DecodeAux onErr (fuel + 1) (b :: t) =
    (if b ≤ 0x7F then Char.ofNat b :: pyUtf8DecodeAux onErr fuel t
    else if b ≤ 0xC1 then onErr ++ pyUtf8DecodeAux onErr fuel t
    else if b ≤ 0xDF then
      match t with
      | [] => onErr
      | b2 :: t2 =>
        if isCont b2 then
          Char.ofNat ((b - 0xC0) * 64 + (b2 - 0x80)) :: pyUtf8DecodeAux onErr fuel t2
        else onErr ++ pyUtf8DecodeAux onErr fuel t
    else if b ≤ 0xEF then
      match t with
      | [] => onErr
      | b2 :: t2 =>
        if (if b = 0xE0 then 0xA0 else 0x80) ≤ b2 && b2 ≤ (if b = 0xED then 0x9F else 0xBF) then
          match t2 with
          | [] => onErr
          | b3 :: t3 =>
            if isCont b3 then
              Char.ofNat ((b - 0xE0) * 4096 + (b2 - 0x80) * 64 + (b3 - 0x80)) ::
                pyUtf8DecodeAux onErr fuel t3
            else onErr ++ pyUtf8DecodeAux onErr fuel t2
        else onErr ++ pyUtf8DecodeAux onErr fuel t
    else if b ≤ 0xF4 then
      match t with
      | [] => onErr
      | b2 :: t2 =>
        if (if b = 0xF0 then 0x90 else 0x80) ≤ b2 && b2 ≤ (if b = 0xF4 then 0x8F else 0xBF) then
          match t2 with
          | [] => onErr
          | b3 :: t3 =>
            if isCont b3 then
              match t3 with
              | [] => onErr
              | b4 :: t4 =>
                if isCont b4 then
                  Char.ofNat ((b - 0xF0) * 262144 + (b2 - 0x80) * 4096 +
                      (b3 - 0x80) * 64 + (b4 - 0x80)) :: pyUtf8DecodeAux onErr fuel t4
                else onErr ++ pyUtf8DecodeAux onErr fuel t3
            else onErr ++ pyUtf8DecodeAux onErr fuel t2
        else onErr ++ pyUtf8DecodeAux onErr fuel t
    else onErr ++ pyUtf8DecodeAux onErr fuel t) := rfl

set_option maxHeartbeats 1600000 in
set_option maxRecDepth 4000 in
/-- The decoder's result does not depend on the fuel, as long as the fuel
covers the byte count. -/
theorem pyUtf8DecodeAux_fuel_irrel (onErr : List Char) :
    ∀ f1 f2 l, l.length ≤ f1 → l.length ≤ f2 →
      pyUtf8DecodeAux onErr f1 l = pyUtf8DecodeAux onErr f2 l := by
  intro f1
  induction f1 with
  | zero =>
    intro f2 l h1 h2
    have hl : l = [] := List.eq_nil_of_length_eq_zero (by omega)
    subst hl
    cases f2 <;> rfl
  | succ f1 ih =>
    intro f2 l h1 h2
    cases l with
    | nil => cases f2 <;> rfl
    | cons b t =>
      cases f2 with
      | zero => exact absurd h2 (by simp)
      | succ f2 =>
        simp only [List.length_cons] at h1 h2
        rw [pyUtf8DecodeAux_cons, pyUtf8DecodeAux_cons]
        repeat' split
        all_goals try rfl
        all_goals (first
          | (refine congrArg (onErr ++ ·) ?_; apply ih <;> (simp_all; try omega))
          | (refine congrArg (fun z => _ :: z) ?_; apply ih <;> (simp_all; try omega)))

/-- Decoding the UTF-8 encoding of one character followed by any byte
tail recovers that character and continues with the tail: no error
handler is invoked on well-formed bytes. -/
theorem pyUtf8Decode_encChar (onErr : List Char) (c : Char) (rest : List Nat) :
    pyUtf8Decode onErr (utf8EncodeChar c ++ rest) = c :: pyUtf8Decode onErr rest := by
  have hv := char_valid_ranges c
  have hofn : Char.ofNat c.toNat = c := Char.ofNat_toNat c
  by_cases h1 : c.toNat < 128
  · have henc : utf8EncodeChar c = [c.toNat] := by
      unfold utf8EncodeChar
      dsimp only
      rw [if_pos h1]
    rw [henc, List.singleton_append]
    unfold pyUtf8Decode
    simp only [List.length_cons]
    rw [pyUtf8DecodeAux_cons]
    rw [if_pos (by omega), hofn]
  · by_cases h2 : c.toNat < 2048
    · have henc : utf8EncodeChar c =
          [0xC0 + c.toNat / 64, 0x80 + c.toNat % 64] := by
        unfold utf8EncodeChar
        dsimp only
        rw [if_neg h1, if_pos h2]
      rw [henc]
      simp only [List.cons_append, List.nil_append]
      unfold pyUtf8Decode
      simp only [List.length_cons]
      rw [pyUtf8DecodeAux_cons]
      rw [if_neg (by omega), if_neg (by omega), if_pos (by omega)]
      try dsimp only
      rw [if_pos (by simp only [isCont, Bool.and_eq_true, decide_eq_true_eq]; omega)]
      have hval : (0xC0 + c.toNat / 64 - 0xC0) * 64 + (0x80 + c.toNat % 64 - 0x80)
          = c.toNat := by omega
      rw [hval, hofn]
      exact congrArg (List.cons c)
        (pyUtf8DecodeAux_fuel_irrel onErr _ _ rest (by omega) (by omega))
    · by_cases h3 : c.toNat < 65536
      · have henc : utf8EncodeChar c =
            [0xE0 + c.toNat / 4096, 0x80 + (c.toNat / 64) % 64,
              0x80 + c.toNat % 64] := by
          unfold utf8EncodeChar
          dsimp only
          rw [if_neg h1, if_neg h2, if_pos h3]
        rw [henc]
        simp only [List.cons_append, List.nil_append]
        unfold pyUtf8Decode
        simp only [List.length_cons]
        rw [pyUtf8DecodeAux_cons]
        rw [if_neg (by omega), if_neg (by omega), if_neg (by omega),
          if_pos (by omega)]
        try dsimp only
        rw [if_pos (by
          simp only [Bool.and_eq_true, decide_eq_true_eq]
          constructor <;> split <;> omega)]
        try dsimp only
        rw [if_pos (by simp only [isCont, Bool.and_eq_true, decide_eq_true_eq]; omega)]
        have hval : (0xE0 + c.toNat / 4096 - 0xE0) * 4096 +
            (0x80 + (c.toNat / 64) % 64 - 0x80) * 64 +
            (0x80 + c.toNat % 64 - 0x80) = c.toNat := by omega
        rw [hval, hofn]
        exact congrArg (List.cons c)
          (pyUtf8DecodeAux_fuel_irrel onErr _ _ rest (by omega) (by omega))
      · have henc : utf8EncodeChar c =
            [0xF0 + c.toNat / 262144, 0x80 + (c.toNat / 4096) % 64,
              0x80 + (c.toNat / 64) % 64, 0x80 + c.toNat % 64] := by
          unfold utf8EncodeChar
          dsimp only
          rw [if_neg h1, if_neg h2, if_neg h3]
        rw [henc]
        simp only [List.cons_append, List.nil_append]
        unfold pyUtf8Decode
        simp only [List.length_cons]
        rw [pyUtf8DecodeAux_cons]
        rw [if_neg (by omega), if_neg (by omega), if_neg (by omega),
          if_neg (by omega), if_pos (by omega)]
        try dsimp only
        rw [if_pos (by
          simp only [Bool.and_eq_true, decide_eq_true_eq]
          constructor <;> split <;> omega)]
        try dsimp only
        rw [if_pos (by simp only [isCont, Bool.and_eq_true, decide_eq_true_eq]; omega)]
        try dsimp only
        rw [if_pos (by simp only [isCont, Bool.and_eq_true, decide_eq_true_eq]; omega)]
        have hval : (0xF0 + c.toNat / 262144 - 0xF0) * 262144 +
            (0x80 + (c.toNat / 4096) % 64 - 0x80) * 4096 +
            (0x80 + (c.toNat / 64) % 64 - 0x80) * 64 +
            (0x80 + c.toNat % 64 - 0x80) = c.toNat := by omega
        rw [hval, hofn]
        exact congrArg (List.cons c)
          (pyUtf8DecodeAux_fuel_irrel onErr _ _ rest (by omega) (by omega))

/-- Decoding a UTF-8-encoded text in front of any byte tail recovers the
text and continues with the tail. -/
theorem pyUtf8Decode_enc_append (onErr : List Char) (cs : List Char)
    (rest : List Nat) :
    pyUtf8Decode onErr (utf8Encode cs ++ rest) = cs ++ pyUtf8Decode onErr rest := by
  induction cs with
  | nil => simp [utf8Encode]
  | cons c cs ih =>
    have hstep : utf8Encode (c :: cs) = utf8EncodeChar c ++ utf8Encode cs := by
      simp [utf8Encode]
    rw [hstep, List.append_assoc, pyUtf8Decode_encChar, ih]
    simp

/-- Valid UTF-8 decodes exactly, with either error handler. -/
theorem pyUtf8Decode_enc (onErr : List Char) (cs : List Char) :
    pyUtf8Decode onErr (utf8Encode cs) = cs := by
  have h := pyUtf8Decode_enc_append onErr cs []
  simpa [pyUtf8Decode, pyUtf8DecodeAux] using h

/-- C7 (amended): the transport's receive path concatenates every chunk
read until the peer closes and decodes the bytes totally, but with
`errors="ignore"`: an undecodable byte is dropped without a trace rather
than replaced by a replacement character, while all well-formed sequences
around it — across chunk boundaries — decode exactly. -/
theorem c7_decode_amended (cs1 cs2 : List Char) (b : Nat)
    (hb1 : 245 ≤ b) (hb2 : b ≤ 255) :
    whois_query [utf8Encode cs1 ++ [b], utf8Encode cs2] = String.mk (cs1 ++ cs2) := by
  unfold whois_query
  have hflat : ([utf8Encode cs1 ++ [b], utf8Encode cs2] : List (List Nat)).flatten
      = utf8Encode cs1 ++ (b :: utf8Encode cs2) := by
    simp
  rw [hflat, pyUtf8Decode_enc_append]
  have hbad : pyUtf8Decode [] (b :: utf8Encode cs2) = cs2 := by
    unfold pyUtf8Decode
    simp only [List.length_cons]
    rw [pyUtf8DecodeAux_cons]
    rw [if_neg (by omega), if_neg (by omega), if_neg (by omega),
      if_neg (by omega), if_neg (by omega)]
    rw [List.nil_append]
    exact pyUtf8Decode_enc [] cs2
  rw [hbad]

/-- C7 witness: the bytes of "Do", an undecodable 0xFF byte, then a chunk
with the bytes of "main" decode to "Domain" — the valid text survives
exactly and the bad byte vanishes. -/
theorem c7_decode_amended_witness :
    whois_query [utf8Encode "Do".data ++ [255], utf8Encode "main".data] =
      "Domain" :=
  (c7_decode_amended "Do".data "main".data 255 (by decide) (by decide)).trans
    (by decide)

/-- C7 counterexample: on the single undecodable byte 0xFF the source's
`errors="ignore"` decode returns the empty string, not the replacement
character the claim describes (which the `"replace"` handler, shown
alongside, would produce). -/
theorem c7_decode_counterexample :
    whois_query [[255]] = "" ∧ pyUtf8Decode [] [255] = [] ∧
      pyUtf8Decode ['�'] [255] = ['�'] ∧
      whois_query [[255]] ≠ "�" := by
  refine ⟨by decide, by decide, by decide, by decide⟩

/-- Each batch record's first component is its input after default-TLD
injection, in input order. -/
theorem runChecks_fst (t : Transport) (r : Nat) (tld : String) :
    ∀ (ds : List String) (st : NetState),
      ((runChecks t r tld ds st).1).map (fun rec => rec.1) =
        ds.map (fun d => withDefaultTld d tld) := by
  intro ds
  induction ds with
  | nil => intro st; rfl
  | cons d rest ih =>
    intro st
    simp only [runChecks, List.map_cons]
    rw [check_one_fst, ih]

/-- Filtering the enumeration for an absent string yields nothing. -/
theorem enumFrom_filter_not_mem (x : String) :
    ∀ (ds : List String) (n : Nat), x ∉ ds →
      (List.enumFrom n ds).filter (fun p => p.2 == x) = [] := by
  intro ds
  induction ds with
  | nil => intro n _; rfl
  | cons a rest ih =>
    intro n h
    rw [List.enumFrom_cons, List.filter_cons]
    have ha : ((n, a).2 == x) = false := by
      simp only [beq_eq_false_iff_ne]
      exact fun he => h (by simp [he])
    rw [ha]
    simp only [Bool.false_eq_true, if_false]
    exact ih (n + 1) (fun hm => h (by simp [hm]))

/-- In a duplicate-free list, filtering the enumeration for the `i`-th
element yields exactly the `i`-th enumeration entry. -/
theorem enumFrom_filter_nodup :
    ∀ (ds : List String), ds.Nodup → ∀ (i n : Nat) (hi : i < ds.length),
      (List.enumFrom n ds).filter (fun p => p.2 == ds[i]) = [(n + i, ds[i])] := by
  intro ds
  induction ds with
  | nil => intro _ i n hi; exact absurd hi (by simp)
  | cons a rest ih =>
    intro hnd i n hi
    rw [List.nodup_cons] at hnd
    obtain ⟨hna, hndr⟩ := hnd
    cases i with
    | zero =>
      simp only [List.getElem_cons_zero]
      rw [List.enumFrom_cons, List.filter_cons]
      have ha : ((n, a).2 == a) = true := by simp
      rw [ha]
      simp only [if_true]
      rw [enumFrom_filter_not_mem a rest (n + 1) hna]
      simp
    | succ j =>
      have hj : j < rest.length := by simpa using hi
      simp only [List.getElem_cons_succ]
      rw [List.enumFrom_cons, List.filter_cons]
      have hne : ((n, a).2 == rest[j]) = false := by
        simp only [beq_eq_false_iff_ne]
        exact fun he => hna (he ▸ List.getElem_mem hj)
      rw [hne]
      simp only [Bool.false_eq_true, if_false]
      rw [ih hndr j (n + 1) hj]
      have hnj : n + 1 + j = n + (j + 1) := by omega
      rw [hnj]

/-- In a duplicate-free input list, the sort key of the `i`-th domain is
`i` itself. -/
theorem orderGet_getElem (ds : List String) (hnd : ds.Nodup) (i : Nat)
    (hi : i < ds.length) : orderGet ds ds[i] = i := by
  unfold orderGet
  have henum : ds.enum = List.enumFrom 0 ds := rfl
  rw [henum, enumFrom_filter_nodup ds hnd i 0 hi]
  simp

/-- Mapping a duplicate-free list through its own sort key enumerates the
positions in order. -/
theorem map_orderGet_range (ds : List String) (hnd : ds.Nodup) :
    ds.map (orderGet ds) = List.range ds.length := by
  apply List.ext_getElem
  · simp
  · intro i h1 h2
    simp only [List.getElem_map, List.getElem_range]
    exact orderGet_getElem ds hnd i (by simpa using h1)

/-- A list pairwise-sorted by a key with no duplicate key values is
pairwise strictly sorted by that key. -/
theorem pairwise_lt_of_le_nodup {α : Type} (key : α → Nat) :
    ∀ (l : List α), l.Pairwise (fun a b => key a ≤ key b) →
      (l.map key).Nodup → l.Pairwise (fun a b => key a < key b) := by
  intro l
  induction l with
  | nil => intro _ _; exact List.Pairwise.nil
  | cons a rest ih =>
    intro hp hn
    rw [List.pairwise_cons] at hp ⊢
    rw [List.map_cons, List.nodup_cons] at hn
    obtain ⟨hp1, hp2⟩ := hp
    obtain ⟨hn1, hn2⟩ := hn
    refine ⟨?_, ih hp2 hn2⟩
    intro b hb
    have hle := hp1 b hb
    have hne : key a ≠ key b := fun he => hn1 (he ▸ List.mem_map_of_mem key hb)
    omega

/-- C1 (amended): the batch produces exactly one record per input domain,
and the caller-handed output is sorted by looking the record's own first
component up in the input list — so whenever every input contains a dot
(the record then carries the input string unchanged) and the inputs are
pairwise distinct, the output matches the caller-supplied order whatever
order the workers complete in; a record whose domain was TLD-augmented is
not found in the input and is sorted to the end instead. -/
theorem c1_batch_order_amended (t : Transport) (r : Nat) (tld : String)
    (st : NetState) (domains : List String)
    (completed : List (String × String × String))
    (hnd : domains.Nodup)
    (hdots : ∀ d ∈ domains, hasDot d = true)
    (hperm : completed.Perm (runChecks t r tld domains st).1) :
    sortResults domains completed = (runChecks t r tld domains st).1 ∧
      ((runChecks t r tld domains st).1).map (fun rec => rec.1) = domains ∧
      (sortResults domains completed).length = domains.length := by
  have hfst : ((runChecks t r tld domains st).1).map (fun rec => rec.1)
      = domains := by
    rw [runChecks_fst]
    calc domains.map (fun d => withDefaultTld d tld)
        = domains.map id :=
          List.map_congr_left (fun d hd => withDefaultTld_of_hasDot tld (hdots d hd))
      _ = domains := List.map_id domains
  have hkey : ((runChecks t r tld domains st).1).map
      (fun rec => orderGet domains rec.1) = List.range domains.length := by
    have h1 := congrArg (List.map (orderGet domains)) hfst
    rw [List.map_map] at h1
    exact h1.trans (map_orderGet_range domains hnd)
  have hsorted_recs : ((runChecks t r tld domains st).1).Pairwise
      (fun a b => orderGet domains a.1 < orderGet domains b.1) := by
    have h1 : (((runChecks t r tld domains st).1).map
        (fun rec => orderGet domains rec.1)).Pairwise (· < ·) := by
      rw [hkey]
      exact List.pairwise_lt_range _
    exact List.pairwise_map.mp h1
  have hperm_out : List.Perm (sortResults domains completed)
      ((runChecks t r tld domains st).1) :=
    (List.perm_insertionSort _ completed).trans hperm
  have hsort_le : (sortResults domains completed).Pairwise
      (fun a b => orderGet domains a.1 ≤ orderGet domains b.1) := by
    haveI : IsTotal (String × String × String)
        (fun a b => orderGet domains a.1 ≤ orderGet domains b.1) :=
      ⟨fun a b => Nat.le_total _ _⟩
    haveI : IsTrans (String × String × String)
        (fun a b => orderGet domains a.1 ≤ orderGet domains b.1) :=
      ⟨fun a b c => Nat.le_trans⟩
    exact List.sorted_insertionSort _ completed
  have hnodup_keys : ((sortResults domains completed).map
      (fun rec => orderGet domains rec.1)).Nodup := by
    have hpm := hperm_out.map (fun rec => orderGet domains rec.1)
    have hrn : (((runChecks t r tld domains st).1).map
        (fun rec => orderGet domains rec.1)).Nodup := by
      rw [hkey]
      exact List.nodup_range _
    exact hpm.symm.nodup hrn
  have hsorted_out : (sortResults domains completed).Pairwise
      (fun a b => orderGet domains a.1 < orderGet domains b.1) :=
    pairwise_lt_of_le_nodup _ _ hsort_le hnodup_keys
  have heq : sortResults domains completed = (runChecks t r tld domains st).1 := by
    haveI : IsAntisymm (String × String × String)
        (fun a b => orderGet domains a.1 < orderGet domains b.1) :=
      ⟨fun a b h1 h2 => absurd h1 (by omega)⟩
    exact List.eq_of_perm_of_sorted hperm_out hsorted_out hsorted_recs
  have hlen : (sortResults domains completed).length = domains.length := by
    rw [heq]
    have := congrArg List.length hfst
    simpa using this
  exact ⟨heq, hfst, hlen⟩

/-- C1 witness: a two-domain batch (both inputs dotted and distinct)
whose workers complete in reversed order is still handed back in input
order. -/
theorem c1_batch_order_amended_witness :
    sortResults ["x.com", "y.org"]
        ((runChecks tFail 1 "com" ["x.com", "y.org"] ⟨[], 0⟩).1.reverse) =
      (runChecks tFail 1 "com" ["x.com", "y.org"] ⟨[], 0⟩).1 ∧
      ((runChecks tFail 1 "com" ["x.com", "y.org"] ⟨[], 0⟩).1).map
        (fun rec => rec.1) = ["x.com", "y.org"] ∧
      (sortResults ["x.com", "y.org"]
        ((runChecks tFail 1 "com" ["x.com", "y.org"] ⟨[], 0⟩).1.reverse)).length = 2 :=
  c1_batch_order_amended tFail 1 "com" ⟨[], 0⟩ ["x.com", "y.org"]
    ((runChecks tFail 1 "com" ["x.com", "y.org"] ⟨[], 0⟩).1.reverse)
    (by decide) (by decide) (by decide)

/-- C1 counterexample: with inputs ["b", "a.com"], the record produced
for the first input "b" carries the augmented domain "b.com", is not
found in the input list, and is sorted to the end: the caller receives
the record of the second input first, so output order does not match
input order. -/
theorem c1_batch_order_counterexample :
    (sortResults ["b", "a.com"]
        (runChecks tFail 1 "com" ["b", "a.com"] ⟨[], 0⟩).1).map
      (fun rec => rec.1) = ["a.com", "b.com"] ∧
      (check_one tFail "b" 1 "com" ⟨[], 0⟩).1.1 = "b.com" ∧
      ((sortResults ["b", "a.com"]
          (runChecks tFail 1 "com" ["b", "a.com"] ⟨[], 0⟩).1).map
        (fun rec => rec.1))[0]? ≠ some (check_one tFail "b" 1 "com" ⟨[], 0⟩).1.1 := by
  refine ⟨by decide, by decide, by decide⟩

end Domnix
